import Mathlib

/-!
# Prometheus-AI peer session and messaging layer: a shallow embedding

This file embeds the core of the Prometheus-AI P2P chat application
(message store, message envelope codec, session backend, LLM host and
client dispatchers) as executable Lean definitions translated from the
JavaScript sources, and proves the stated properties about them.

Modelling conventions (shared by all definitions below):
* JavaScript values travelling over the wire are modelled by the inductive
  JSON value type `JVal`.  Property access `x.f` is `JVal.get x "f"`,
  returning `none` for the JS `undefined`.
* A JS `undefined`/`null` string-valued field is modelled as
  `Option String` (`none`); JS truthiness of a string is non-emptiness.
* `Date.now()` timestamps, freshly generated random identifiers and the
  success of individual socket writes are inputs (oracle parameters) of
  the embedded operations; the code never branches on their internal
  structure.
* Exceptions that the source catches are modelled by the catch branch's
  result; an operation whose source is wrapped in `try { ... } catch`
  is embedded as a total function whose value on the throwing inputs is
  the state the catch handler leaves behind.
* JS `Map` objects are modelled as association lists in key-insertion
  order (`List (String × α)`); `Map.get` is `alistGet`, `Map.set` is
  `alistSet`, `Map.delete` is `alistDel`.
-/

namespace Prometheus

/-- JSON values, as produced by `JSON.parse` / consumed by `JSON.stringify`. -/
inductive JVal where
  | null : JVal
  | str : String → JVal
  | num : Int → JVal
  | bool : Bool → JVal
  | arr : List JVal → JVal
  | obj : List (String × JVal) → JVal
  deriving Repr

/-- JS property read `v.k`: `none` models `undefined`.  Only objects have
named properties; reading an unknown property of a primitive yields
`undefined` (reads *on* `null`/`undefined` throw and are handled at the
call sites that the source wraps in `try`/`catch`). -/
def JVal.get : JVal → String → Option JVal
  | .obj fields, k => (fields.find? (fun p => p.1 = k)).map (fun p => p.2)
  | _, _ => none

/-- JS truthiness of a JSON value. -/
def JVal.truthy : JVal → Bool
  | .null => false
  | .str s => s ≠ ""
  | .num n => n ≠ 0
  | .bool b => b
  | .arr _ => true
  | .obj _ => true

/-- JS truthiness of a possibly-`undefined` value. -/
def otruthy : Option JVal → Bool
  | none => false
  | some v => v.truthy

/-- Extract a JS string value (`none` for `undefined`, `null` and
non-string values). -/
def asStr : Option JVal → Option String
  | some (.str s) => some s
  | _ => none

/-- Extract a JS number value. -/
def asInt : Option JVal → Option Int
  | some (.num n) => some n
  | _ => none

/-- JS `a || b` on possibly-absent strings: `a` when truthy (non-empty),
else `b`. -/
def jsOr (a b : Option String) : Option String :=
  match a with
  | some s => if s ≠ "" then some s else b
  | none => b

/-- Encode a possibly-absent string field the way `JSON.stringify` writes
it into an object (absent values are written as `null` here; real JS
omits `undefined` and writes `null`, which a re-parse reads back as the
same falsy absent value in all uses below). -/
def jstr : Option String → JVal
  | none => .null
  | some s => .str s

/-- Encode a possibly-absent number field. -/
def jint : Option Int → JVal
  | none => .null
  | some n => .num n

/-- `Map.get` on an association list in insertion order. -/
def alistGet {α : Type} : List (String × α) → String → Option α
  | [], _ => none
  | (k, v) :: rest, key => if k = key then some v else alistGet rest key

/-- `Map.set` on an association list: replace the value of an existing
key in place, else append the new key. -/
def alistSet {α : Type} : List (String × α) → String → α → List (String × α)
  | [], key, v => [(key, v)]
  | (k, w) :: rest, key, v =>
      if k = key then (key, v) :: rest else (k, w) :: alistSet rest key v

/-- `Map.delete` on an association list.  A JS `Map` holds each key at
most once, so dropping every entry with the key is dropping the entry. -/
def alistDel {α : Type} : List (String × α) → String → List (String × α)
  | [], _ => []
  | (k, w) :: rest, key =>
      if k = key then alistDel rest key else (k, w) :: alistDel rest key

/-- `Map.has` on an association list. -/
def alistHas {α : Type} (m : List (String × α)) (key : String) : Bool :=
  m.any (fun p => p.1 = key)

/-- JS strict equality `v === "lit"` of a possibly-absent value with a
string literal. -/
def isStr (v : Option JVal) (lit : String) : Bool :=
  match v with
  | some (.str s) => s = lit
  | _ => false

/-! ## The wire Message of `messages.js` (the store used by `backend.js`)

`Message` from `src/prometheus-pear/messages.js` in the form the backend
uses it (the `chatId` variant, whose `MessageStore` provides
`getChat`/`createChat`/`deleteChat`): fields are exactly the ones the
constructor assigns.  `Option` fields model the JS value being
`undefined`/`null`. -/

/-- `this.sender = { id: senderId, displayName: displayName || senderId }`. -/
structure Sender where
  id : Option String
  displayName : Option String
  deriving Repr, DecidableEq

/-- The `Message` class of `messages.js`: `id`, `content`, `role`,
`sender`, `timestamp`, `type`, `chatId`, `reasoning_content`.  `id` and
`timestamp` are `Option` because `fromSerialized` overwrites them with
whatever the parsed payload carries. -/
structure Msg where
  id : Option String
  content : Option String
  role : Option String
  sender : Sender
  timestamp : Option Int
  type : Option String
  chatId : Option String
  reasoning_content : Option String
  deriving Repr, DecidableEq

/-- The `Message` constructor: fresh random `id`, `Date.now()` timestamp
(both oracle inputs here), `sender.displayName` defaulting to the sender
id (`displayName || senderId`), `type` defaulting to `'text'` when the
argument is absent. -/
def Msg.make (content role senderId type chatId displayName reasoning : Option String)
    (freshId : String) (now : Int) : Msg :=
  { id := some freshId
    content := content
    role := role
    sender := { id := senderId, displayName := jsOr displayName senderId }
    timestamp := some now
    type := some (type.getD "text")
    chatId := chatId
    reasoning_content := reasoning }

/-- `Message.serialize()`: the JSON object written to the wire, with the
fields in the order the source lists them
(`id, role, content, sender, timestamp, type, chatId, reasoning_content`). -/
def Msg.serializeJ (m : Msg) : JVal :=
  .obj [("id", jstr m.id),
        ("role", jstr m.role),
        ("content", jstr m.content),
        ("sender", .obj [("id", jstr m.sender.id), ("displayName", jstr m.sender.displayName)]),
        ("timestamp", jint m.timestamp),
        ("type", jstr m.type),
        ("chatId", jstr m.chatId),
        ("reasoning_content", jstr m.reasoning_content)]

/-- `JSON.stringify(message)` on a raw `Message` instance (used by
`sendMessage` when it stringifies a whole conversation array): same
fields, in constructor-assignment order. -/
def Msg.toJson (m : Msg) : JVal :=
  .obj [("id", jstr m.id),
        ("content", jstr m.content),
        ("role", jstr m.role),
        ("sender", .obj [("id", jstr m.sender.id), ("displayName", jstr m.sender.displayName)]),
        ("timestamp", jint m.timestamp),
        ("type", jstr m.type),
        ("chatId", jstr m.chatId),
        ("reasoning_content", jstr m.reasoning_content)]

/-- `Message.fromSerialized(serialized)` after `JSON.parse` succeeded:
builds `new Message(data.content, data.role, data.sender.senderId,
data.type, data.chatId, data.sender.displayName, data.reasoning_content)`
and then overwrites `id` and `timestamp` from the payload.  Reading
`data.sender.senderId` when `data.sender` is `undefined` or `null`
throws, is caught, and the function returns `undefined` (`none`). -/
def Msg.fromSerializedJ (data : JVal) (freshId : String) (now : Int) : Option Msg :=
  match data.get "sender" with
  | none => none
  | some .null => none
  | some s =>
      let m := Msg.make (asStr (data.get "content")) (asStr (data.get "role"))
        (asStr (s.get "senderId")) (asStr (data.get "type")) (asStr (data.get "chatId"))
        (asStr (s.get "displayName")) (asStr (data.get "reasoning_content")) freshId now
      some { m with id := asStr (data.get "id"), timestamp := asInt (data.get "timestamp") }

/-! ## The `MessageStore` of `messages.js` (`chats : Map<chatId, Message[]>`) -/

/-- Append a message to the (first) entry of the given chat id. -/
def pushChat : List (String × List Msg) → String → Msg → List (String × List Msg)
  | [], _, _ => []
  | (k, ms) :: rest, cid, m =>
      if k = cid then (k, ms ++ [m]) :: rest else (k, ms) :: pushChat rest cid m

/-- The in-memory store backing `backend.js`: `chatId -> messages[]` in
key-insertion order. -/
structure ChatStore where
  chats : List (String × List Msg)
  deriving Repr, DecidableEq

def ChatStore.empty : ChatStore := ⟨[]⟩

/-- `MessageStore.addMessage`: no-op when `message.chatId` is falsy,
otherwise get-or-create the chat's array and push.  The second component
is the list of messages handed to the registered new-message listeners
(`_notifyListeners(message)`). -/
def ChatStore.addMessage (st : ChatStore) (m : Msg) : ChatStore × List Msg :=
  match m.chatId with
  | none => (st, [])
  | some cid =>
      if cid = "" then (st, [])
      else
        let chats0 := if alistHas st.chats cid then st.chats else st.chats ++ [(cid, [])]
        (⟨pushChat chats0 cid m⟩, [m])

/-- `MessageStore.getChat(chatId)`: `this.chats.get(chatId) || []`; the
argument is the possibly-unset JS value the callers pass. -/
def ChatStore.getChat (st : ChatStore) : Option String → List Msg
  | none => []
  | some cid => (alistGet st.chats cid).getD []

/-! ## The `MessageStore` of `models/message-store.js`

The evolved store (the one §4.2 of the design describes): replace-by-id
in place for streaming updates, and two listener families — per-message
listeners and chat-set listeners that receive the full chat map. -/

/-- The `Message` class of `models/message.js` (the variant this store
holds): the constructor always produces a string `id`, a sender with a
`displayName` fallback of `'Unknown'`, and a `timestamp`. -/
structure MMsg where
  id : String
  content : String
  role : String
  senderId : String
  senderName : String
  type : String
  timestamp : Int
  chatId : Option String
  reasoningContent : Option String
  deriving Repr, DecidableEq

/-- What `addMessage` hands to its listeners: `_notifyListeners(message)`
gives the message to every new-message listener, then
`_notifyChatListeners()` gives the full `chatId -> messages[]` map to
every chat-set listener. -/
inductive StoreEvent where
  | newMessage (m : MMsg)
  | chatsChanged (chats : List (String × List MMsg))
  deriving Repr, DecidableEq

/-- `chatMessages[existingIndex] = message`: replace the first entry
whose `id` equals the new message's id, in its original position. -/
def replaceFirstById (m : MMsg) : List MMsg → List MMsg
  | [] => []
  | x :: xs => if x.id = m.id then m :: xs else x :: replaceFirstById m xs

/-- The `findIndex`-then-replace-or-push body of `addMessage`, acting on
one chat's array. -/
def upsertById (m : MMsg) (ms : List MMsg) : List MMsg :=
  if ms.any (fun x => x.id = m.id) then replaceFirstById m ms else ms ++ [m]

/-- Apply `upsertById` to the (first) entry of the given chat id. -/
def upsertChat : List (String × List MMsg) → String → MMsg → List (String × List MMsg)
  | [], _, _ => []
  | (k, ms) :: rest, cid, m =>
      if k = cid then (k, upsertById m ms) :: rest else (k, ms) :: upsertChat rest cid m

/-- The store of `models/message-store.js`: `messages : Map<chatId, Message[]>`. -/
structure MStore where
  messages : List (String × List MMsg)
  deriving Repr, DecidableEq

def MStore.empty : MStore := ⟨[]⟩

/-- `MessageStore.addMessage`: rejects a message without a (truthy)
`chatId`; get-or-create the chat array; replace the existing message of
the same id in place, else push; then notify the message listeners with
the message and the chat listeners with the full map. -/
def MStore.addMessage (st : MStore) (m : MMsg) : MStore × List StoreEvent :=
  match m.chatId with
  | none => (st, [])
  | some cid =>
      if cid = "" then (st, [])
      else
        let chats0 := if alistHas st.messages cid then st.messages else st.messages ++ [(cid, [])]
        let chats1 := upsertChat chats0 cid m
        (⟨chats1⟩, [.newMessage m, .chatsChanged chats1])

/-- `MessageStore.getChat(chatId)`: `this.messages.get(chatId) || []`. -/
def MStore.getChat (st : MStore) (cid : String) : List MMsg :=
  (alistGet st.messages cid).getD []

/-- `MessageStore.getChats()`. -/
def MStore.getChats (st : MStore) : List (String × List MMsg) :=
  st.messages

/-- `MessageStore.createChat()`: a fresh random 8-byte hex id (an oracle
input here), an empty message array under it, and a chat-set
notification. -/
def MStore.createChat (st : MStore) (freshId : String) : MStore × String × List StoreEvent :=
  let st1 : MStore := ⟨alistSet st.messages freshId []⟩
  (st1, freshId, [.chatsChanged st1.messages])

/-- `MessageStore.deleteChat(chatId)`. -/
def MStore.deleteChat (st : MStore) (cid : String) : MStore × Bool :=
  if alistHas st.messages cid then (⟨alistDel st.messages cid⟩, true) else (st, false)

/-- Feed a list of messages through `addMessage`, left to right. -/
def MStore.addAll (st : MStore) (msgs : List MMsg) : MStore :=
  msgs.foldl (fun s m => (s.addMessage m).1) st

/-- The per-chat specification: the messages added for chat `C`, in
insertion order, a later message with an already-present id replacing
the earlier entry at its original position. -/
def chatSpec (C : String) (msgs : List MMsg) : List MMsg :=
  msgs.foldl (fun acc m => if m.chatId = some C then upsertById m acc else acc) []

/-! ## User identity (`identity.js`) -/

/-- The LLM configuration carried by the host status
(`{provider, model, apiKey}`). -/
structure LLMConfig where
  provider : String
  model : String
  apiKey : Option String
  deriving Repr, DecidableEq

/-- Modelled from the spec: the host-status record of the Identity,
`hostStatus: {isHost: bool, llmConfig?: {provider, model, apiKey}}`.
The `UserIdentity` methods `setHostStatus`/`getHostStatus` are called by
`backend.js` and `server-peer.js` but their implementation is not among
the sources; §3 and §4.1 of the design describe the data and the
operation. -/
structure HostStatus where
  isHost : Bool
  llmConfig : Option LLMConfig
  deriving Repr, DecidableEq

/-- The mutable state of the `UserIdentity` singleton: stable `userId`,
mutable `displayName`, and the host status. -/
structure IdentityState where
  userId : String
  displayName : String
  hostStatus : HostStatus
  deriving Repr, DecidableEq

/-- JS `String.prototype.trim`: strip whitespace from both ends
(executable down to the character list, unlike `String.trim`). -/
def jsTrim (s : String) : String :=
  ⟨((s.data.dropWhile Char.isWhitespace).reverse.dropWhile Char.isWhitespace).reverse⟩

/-- The error `setDisplayName` throws on an empty name
(the design's `InvalidArgument`). -/
inductive IdError where
  | invalidArgument (msg : String)
  deriving Repr, DecidableEq

/-- `UserIdentity.setDisplayName(name)`: throws when the name is falsy or
empty after trimming (before any mutation), else stores the trimmed name
and fires the display-name change notification.  Returns the resulting
identity state, the call's outcome, and the notification payloads fired. -/
def UserIdentity.setDisplayName (st : IdentityState) (name : String) :
    IdentityState × Except IdError Unit × List String :=
  if name = "" ∨ jsTrim name = "" then
    (st, .error (.invalidArgument "Display name cannot be empty"), [])
  else
    let st1 := { st with displayName := jsTrim name }
    (st1, .ok (), [st1.displayName])

/-- Modelled from the spec: `setHostStatus(isHost, config?)` stores or
clears `llmConfig` with the flag and triggers a host-status change
notification (§4.1); implementation absent from the sources, callers in
`backend.js` pass `(true, config)` or `(false)`. -/
def UserIdentity.setHostStatus (st : IdentityState) (isHost : Bool)
    (config : Option LLMConfig) : IdentityState × List HostStatus :=
  let hs : HostStatus := { isHost := isHost, llmConfig := if isHost then config else none }
  ({ st with hostStatus := hs }, [hs])

/-! ## The `P2PChat` backend (`backend.js`) -/

/-- One entry of `this.peers`: connection handle identified by the full
public-key hex, `name` the first 6 chars, plus the fields identity
envelopes fill in later. -/
structure PeerInfo where
  name : String
  joinedAt : Int
  displayName : Option String
  hostStatus : Option JVal
  deriving Repr

/-- The state of the `P2PChat` instance: swarm topic and room id, the
swarm's live connection set and the cached `swarmConnections` count
(refreshed only by the swarm `update` event), the peer map, the LLM
provider slot, the identity singleton and the message store singleton. -/
structure Backend where
  activeTopic : Option String
  currentRoomId : Option String
  swarmConns : List String
  swarmConnections : Nat
  peers : List (String × PeerInfo)
  llmProvider : Option String
  identity : IdentityState
  store : ChatStore
  deriving Repr

/-- `getPeerCount()`: the cached count from the last swarm update. -/
def Backend.getPeerCount (st : Backend) : Nat := st.swarmConnections

/-- `getCurrentTopic()`: the hex of the active topic, or `null`. -/
def Backend.getCurrentTopic (st : Backend) : Option String := st.activeTopic

/-- What `getPeers()` exposes per peer. -/
structure PeerListing where
  id : String
  displayName : String
  joinedAt : Int
  deriving Repr, DecidableEq

/-- `getPeers()`: list the peer map, display name falling back to the
short name. -/
def Backend.getPeers (st : Backend) : List PeerListing :=
  st.peers.map (fun p => ⟨p.2.name, (p.2.displayName).getD p.2.name, p.2.joinedAt⟩)

/-- The swarm `update` event handler:
`this.swarmConnections = this.swarm.connections.size`. -/
def Backend.onSwarmUpdate (st : Backend) : Backend :=
  { st with swarmConnections := st.swarmConns.length }

/-- `sendMessage(content, chatId)`: refuse when not in a room; else build
a `user`-role `Message` from the local identity, add it to the store,
take the whole chat back out, and write its JSON array to every peer,
counting the writes that succeed and skipping the ones that throw.
`freshId`/`now` are the id/timestamp oracles, `writeOk` tells which peer
connections accept the write.  Returns the new state, the boolean result
(`sentCount > 0`), and the successful writes `(peerId, payload)` in peer
order. -/
def Backend.sendMessage (st : Backend) (content : Option String) (chatId : Option String)
    (freshId : String) (now : Int) (writeOk : String → Bool) :
    Backend × Bool × List (String × JVal) :=
  match st.currentRoomId with
  | none => (st, false, [])
  | some _ =>
      let message := Msg.make content (some "user") (some st.identity.userId) (some "text")
        chatId (some st.identity.displayName) none freshId now
      let store1 := (st.store.addMessage message).1
      let conversation := store1.getChat chatId
      let acc := st.peers.foldl
        (fun (acc : List (String × JVal) × Nat) p =>
          if writeOk p.1 then
            (acc.1 ++ [(p.1, JVal.arr (conversation.map Msg.toJson))], acc.2 + 1)
          else acc)
        ([], 0)
      ({ st with store := store1 }, acc.2 > 0, acc.1)

/-- `leaveRoom()`: nothing to do without an active topic; else stop
discovery (`swarm.leave`, whose success is the `leaveOk` oracle — on a
rejection the catch returns `false` with nothing yet torn down), destroy
every live connection and clear the peer map, null out topic and room
id, drop the LLM provider and clear the host role.  The last component
lists the connections destroyed. -/
def Backend.leaveRoom (st : Backend) (leaveOk : Bool) : Backend × Bool × List String :=
  match st.activeTopic with
  | none => (st, false, [])
  | some _ =>
      if leaveOk then
        let destroyed := st.swarmConns
        let st1 := { st with swarmConns := ([] : List String), peers := ([] : List (String × PeerInfo)) }
        let st2 := { st1 with activeTopic := (none : Option String), currentRoomId := (none : Option String) }
        let st3 := { st2 with llmProvider := (none : Option String),
                              identity := (UserIdentity.setHostStatus st2.identity false none).1 }
        (st3, true, destroyed)
      else (st, false, [])

/-- `P2PChat.setDisplayName(displayName)`: delegate to the identity
singleton, then return `getDisplayName()`; a throw propagates to the
caller as the error outcome. -/
def Backend.setDisplayName (st : Backend) (name : String) :
    Backend × Except IdError String × List String :=
  let r := UserIdentity.setDisplayName st.identity name
  match r.2.1 with
  | .error e => ({ st with identity := r.1 }, .error e, r.2.2)
  | .ok _ => ({ st with identity := r.1 }, .ok r.1.displayName, r.2.2)

/-- `_handleIdentityMessage(peerId, data)`: bail out when `data.identity`
is falsy or the peer is unknown; else copy a truthy `displayName` and a
truthy `hostStatus` into the peer record (a non-string truthy
`displayName` is collapsed to absent, which no claim observes). -/
def Backend.handleIdentityMessage (st : Backend) (peerId : String) (data : JVal) : Backend :=
  match data.get "identity" with
  | none => st
  | some idv =>
      if ¬ idv.truthy then st
      else
        match alistGet st.peers peerId with
        | none => st
        | some pr =>
            let pr1 := if otruthy (idv.get "displayName")
              then { pr with displayName := asStr (idv.get "displayName") } else pr
            let pr2 := if otruthy (idv.get "hostStatus")
              then { pr1 with hostStatus := idv.get "hostStatus" } else pr1
            { st with peers := alistSet st.peers peerId pr2 }

/-- The per-peer `data` handler installed on connection (backend.js):
everything is inside `try { ... } catch`, so the handler always returns
normally; `raw` is the `JSON.parse` result (`none` when the parse threw).
Identity envelopes go to `_handleIdentityMessage`; while hosting with a
provider the payload goes to `_processWithLLM`, which only writes to peer
connections and never touches the peer map or the store; otherwise the
payload is deserialized as a message and added to the store (a failed
deserialization yields `undefined`, on which `addMessage` throws reading
`.chatId`, and the catch leaves the state as it was). -/
def Backend.peerDataHandler (st : Backend) (peerId : String) (raw : Option JVal)
    (freshId : String) (now : Int) : Backend :=
  match raw with
  | none => st
  | some .null => st
  | some data =>
      if isStr (data.get "type") "identity" then st.handleIdentityMessage peerId data
      else if st.identity.hostStatus.isHost && st.llmProvider.isSome then st
      else
        match Msg.fromSerializedJ data freshId now with
        | none => st
        | some m => { st with store := (st.store.addMessage m).1 }

/-- A payload is a malformed envelope when it fails to parse as JSON, or
parses to a value on which the handler's property reads throw (`null`),
or is an identity envelope without an `identity` field, or is a
non-identity payload without a readable `sender` or without a truthy
`chatId` — i.e. it lacks the shape either handler path requires. -/
def malformedEnvelope (raw : Option JVal) : Bool :=
  match raw with
  | none => true
  | some .null => true
  | some data =>
      if isStr (data.get "type") "identity" then ¬ otruthy (data.get "identity")
      else
        match data.get "sender" with
        | none => true
        | some .null => true
        | some _ => ¬ otruthy (data.get "chatId")

/-! ## Room lifecycle (`_joinSwarm` / `leaveRoom`) as a state machine

For the single-active-room invariant each peer connection is tagged (as
a ghost annotation) with the topic that was active when it arrived;
connections only arrive from discovery of the joined topic.  External
discovery calls (`swarm.join(...).flushed()`, `swarm.leave`) are modelled
as succeeding. -/

/-- The session-level state: the single `activeTopic` slot and the peer
connections, each tagged with the topic it belongs to. -/
structure SessState where
  activeTopic : Option String
  peers : List (String × String)
  deriving Repr, DecidableEq

def SessState.start : SessState := ⟨none, []⟩

/-- `_joinSwarm(topicBuffer)` (entered from both `createRoom` and
`joinRoom`): when a topic is active, first leave it and close every
connection (`_closeAllConnections` also clears the peer map), then join
the new topic. -/
def joinSwarm (st : SessState) (t : String) : SessState :=
  let st1 := if st.activeTopic.isSome
    then { st with activeTopic := (none : Option String), peers := ([] : List (String × String)) }
    else st
  { st1 with activeTopic := some t }

/-- `leaveRoom()` at the session level: with an active topic, stop
discovery, close every connection and clear the peer map. -/
def leaveRoomS (st : SessState) : SessState :=
  if st.activeTopic.isSome then ⟨none, []⟩ else st

/-- A `connection` event: discovery of the active topic produced a peer;
the arriving connection is tagged with that topic. -/
def connectS (st : SessState) (cid : String) : SessState :=
  match st.activeTopic with
  | some t => { st with peers := st.peers ++ [(cid, t)] }
  | none => st

/-- A connection `close` event: the peer leaves the map. -/
def closeS (st : SessState) (cid : String) : SessState :=
  { st with peers := alistDel st.peers cid }

/-- The session states reachable from process start through the room
lifecycle and connection events. -/
inductive Reach : SessState → Prop where
  | start : Reach SessState.start
  | join (t : String) {s : SessState} : Reach s → Reach (joinSwarm s t)
  | leave {s : SessState} : Reach s → Reach (leaveRoomS s)
  | connect (c : String) {s : SessState} : Reach s → Reach (connectS s c)
  | close (c : String) {s : SessState} : Reach s → Reach (closeS s c)

/-! ## The `LLMClient` dispatcher (`llm-host.js`)

`sendLLMRequest` records a pending-callback entry under the generated
`requestId`; `_handleLLMResponse`/`_handleLLMStreamChunk` look the entry
up by `requestId` and remove it at the terminal event.  Callback objects
are identified by an abstract token; an envelope without a string
`requestId` can never match a registered id (`undefined` is not a string
key) and is omitted.  `hasError`/`isStream`/`done` are the truthiness of
the corresponding fields of the decoded envelope. -/

structure ClientState where
  requestCallbacks : List (String × Nat)
  activeRequests : List (String × Nat)
  deriving Repr, DecidableEq

/-- The inputs the client dispatcher reacts to: an `llm-response`
envelope, an `llm-stream-chunk` envelope, or a local `sendLLMRequest`
registering callbacks under a fresh request id. -/
inductive ClientEv where
  | response (rid : String) (hasError : Bool) (isStream : Bool)
  | chunk (rid : String) (done : Bool)
  | register (rid : String) (tok : Nat)
  deriving Repr, DecidableEq

/-- An observable callback invocation performed by the dispatcher. -/
inductive Invocation where
  | onResponse (tok : Nat) (rid : String) (hasError : Bool) (isStream : Bool)
  | onChunk (tok : Nat) (rid : String) (done : Bool)
  deriving Repr, DecidableEq

/-- Does this invocation belong to the given request id? -/
def Invocation.forReq (rid : String) : Invocation → Bool
  | .onResponse _ r _ _ => r = rid
  | .onChunk _ r _ => r = rid

/-- A terminal delivery: a response carrying an error or with `isStream`
unset, or a chunk with `done` set. -/
def Invocation.isTerminal : Invocation → Bool
  | .onResponse _ _ hasError isStream => hasError || !isStream
  | .onChunk _ _ done => done

/-- Does this event register callbacks for the given request id? -/
def ClientEv.registersFor (rid : String) : ClientEv → Bool
  | .register r _ => r = rid
  | _ => false

/-- One dispatcher step: `sendLLMRequest` stores the request and its
callbacks; `_handleLLMResponse` invokes `onResponse` when an entry
exists and removes the entry when the response has an error or is not a
stream; `_handleLLMStreamChunk` invokes `onChunk` when an entry exists
and removes the entry when the chunk is `done`. -/
def stepClient (st : ClientState) (ev : ClientEv) : ClientState × List Invocation :=
  match ev with
  | .register rid tok =>
      ({ requestCallbacks := alistSet st.requestCallbacks rid tok,
         activeRequests := alistSet st.activeRequests rid tok }, [])
  | .response rid hasError isStream =>
      let hit := alistGet st.requestCallbacks rid
      let invs := match hit with
        | none => []
        | some tok => [Invocation.onResponse tok rid hasError isStream]
      let cbs := match hit with
        | none => st.requestCallbacks
        | some _ =>
            if hasError || !isStream then alistDel st.requestCallbacks rid
            else st.requestCallbacks
      let acts := if hasError || !isStream then alistDel st.activeRequests rid
        else st.activeRequests
      ({ requestCallbacks := cbs, activeRequests := acts }, invs)
  | .chunk rid done =>
      let invs := match alistGet st.requestCallbacks rid with
        | none => []
        | some tok => [Invocation.onChunk tok rid done]
      if done then
        ({ requestCallbacks := alistDel st.requestCallbacks rid,
           activeRequests := alistDel st.activeRequests rid }, invs)
      else (st, invs)

/-- Run the dispatcher over a sequence of events, accumulating the
invocations in order. -/
def runClient : ClientState → List ClientEv → ClientState × List Invocation
  | st, [] => (st, [])
  | st, ev :: evs =>
      let r := stepClient st ev
      let rest := runClient r.1 evs
      (rest.1, r.2 ++ rest.2)

/-! ## The `LLMHost` dispatcher (`llm-host.js`) -/

/-- An entry of the host's `activeRequests` map: the requesting peer and
the request's model (used by `_sendErrorResponse`). -/
structure ActiveReq where
  peerId : String
  model : Option String

/-- A provider as the host calls it: `chatCompletion` returns a result
or throws; `streamChatCompletion` invokes the chunk callback once per
piece and either completes or throws after the delivered pieces. -/
structure ProviderFn where
  completion : Option String → Option JVal → Option JVal → Except String JVal
  streamPieces : Option String → Option JVal → Option JVal → List JVal × Option String

/-- The state of the `LLMHost` singleton. -/
structure HostState where
  provider : Option ProviderFn
  status : String
  activeRequests : List (String × ActiveReq)

/-- `LLMResponse(...).serialize()`. -/
def llmResponseJ (rid : Option String) (cid : Option JVal) (model : Option String)
    (resp : Option JVal) (err : Option String) (isStream : Bool) (now : Int) : JVal :=
  .obj [("type", .str "llm-response"),
        ("response", .obj [("requestId", jstr rid),
                           ("conversationId", cid.getD .null),
                           ("model", jstr model),
                           ("response", resp.getD .null),
                           ("error", jstr err),
                           ("isStream", .bool isStream),
                           ("timestamp", .num now)])]

/-- `LLMStreamChunk(...).serialize()`. -/
def llmChunkJ (rid : Option String) (cid : Option JVal) (chunk : Option JVal)
    (done : Bool) (now : Int) : JVal :=
  .obj [("type", .str "llm-stream-chunk"),
        ("chunk", .obj [("requestId", jstr rid),
                        ("conversationId", cid.getD .null),
                        ("chunk", chunk.getD .null),
                        ("done", .bool done),
                        ("timestamp", .num now)])]

/-- `_sendErrorResponse(requestId, conversationId, errorMessage)`: looks
the request up in `activeRequests` and returns without writing anything
when there is no entry; with an entry it writes one error `LLMResponse`
to the recorded peer. -/
def sendErrorResponse (st : HostState) (rid : Option String) (cid : Option JVal)
    (errMsg : String) (now : Int) : List (String × JVal) :=
  match rid with
  | none => []
  | some r =>
      match alistGet st.activeRequests r with
      | none => []
      | some ar => [(ar.peerId, llmResponseJ (some r) cid ar.model none (some errMsg) false now)]

/-- The decoded `LLMRequest` (`LLMRequest.fromSerialized` output): the
constructor replaces a falsy `requestId` by a freshly generated one
(the `freshRid` oracle). -/
structure LLMReqR where
  requestId : String
  conversationId : Option JVal
  model : Option String
  messages : Option JVal
  options : Option JVal

/-- `LLMRequest.fromSerialized(data)`: `null` without a truthy
`data.request`; otherwise the request fields, the `requestId` defaulted
when falsy. -/
def llmReqFromSerialized (data : JVal) (freshRid : String) : Option LLMReqR :=
  match data.get "request" with
  | none => none
  | some req =>
      if ¬ req.truthy then none
      else
        some { requestId :=
                 match asStr (req.get "requestId") with
                 | some s => if s ≠ "" then s else freshRid
                 | none => freshRid
               conversationId := req.get "conversationId"
               model := asStr (req.get "model")
               messages := req.get "messages"
               options := req.get "options" }

/-- `request.options.stream === true`. -/
def streamFlag (options : Option JVal) : Bool :=
  match options with
  | some o =>
      match o.get "stream" with
      | some (.bool true) => true
      | _ => false
  | none => false

/-- `_handleLLMRequest(data, peer)`: with no provider or a non-available
status, call `_sendErrorResponse` (before any `activeRequests` entry for
the request exists) and return; otherwise decode the request, record it
in `activeRequests`, run the provider (non-streaming or streaming per
`options.stream`), send the response / chunk sequence / error response,
and finally remove the `activeRequests` entry.  Reading
`data.request.requestId` on a payload without a `request` object throws
inside the async handler, sending nothing. -/
def handleLLMRequest (st : HostState) (data : JVal) (peerId : String)
    (freshRid : String) (now : Int) : HostState × List (String × JVal) :=
  if st.provider.isNone || st.status ≠ "available" then
    match data.get "request" with
    | none => (st, [])
    | some .null => (st, [])
    | some req =>
        (st, sendErrorResponse st (asStr (req.get "requestId")) (req.get "conversationId")
          "LLM host not available" now)
  else
    match st.provider with
    | none => (st, [])
    | some pf =>
        match llmReqFromSerialized data freshRid with
        | none => (st, [])
        | some r =>
            let st1 : HostState :=
              { st with activeRequests :=
                  alistSet st.activeRequests r.requestId ⟨peerId, r.model⟩ }
            let writes :=
              if streamFlag r.options then
                let (pieces, streamErr) := pf.streamPieces r.model r.messages r.options
                let pieceWrites := pieces.map
                  (fun c => (peerId, llmChunkJ (some r.requestId) r.conversationId (some c) false now))
                match streamErr with
                | none =>
                    pieceWrites ++ [(peerId, llmChunkJ (some r.requestId) r.conversationId none true now)]
                | some e =>
                    pieceWrites
                      ++ sendErrorResponse st1 (some r.requestId) r.conversationId e now
                      ++ [(peerId, llmChunkJ (some r.requestId) r.conversationId none true now)]
              else
                match pf.completion r.model r.messages r.options with
                | .ok resp =>
                    [(peerId, llmResponseJ (some r.requestId) r.conversationId r.model (some resp) none false now)]
                | .error e => sendErrorResponse st1 (some r.requestId) r.conversationId e now
            ({ st1 with activeRequests := alistDel st1.activeRequests r.requestId }, writes)

/-- The `requestId` carried by an `llm-request` envelope, when the
envelope has a readable `request` object. -/
def reqIdOf (data : JVal) : Option String :=
  match data.get "request" with
  | none => none
  | some .null => none
  | some req => asStr (req.get "requestId")

/-! ## Association-list facts shared by the proofs -/

theorem alistGet_set_self {α : Type} (m : List (String × α)) (k : String) (v : α) :
    alistGet (alistSet m k v) k = some v := by
  induction m with
  | nil => simp [alistSet, alistGet]
  | cons p rest ih =>
      by_cases h : p.1 = k
      · simp [alistSet, alistGet, h]
      · simpa [alistSet, alistGet, h] using ih

theorem alistGet_set_ne {α : Type} (m : List (String × α)) (k k2 : String) (v : α)
    (h : k ≠ k2) : alistGet (alistSet m k2 v) k = alistGet m k := by
  have h2 : ¬ (k2 = k) := fun hh => h hh.symm
  induction m with
  | nil => simp [alistSet, alistGet, h2]
  | cons p rest ih =>
      by_cases hp : p.1 = k2
      · simp [alistSet, alistGet, hp, h2]
      · by_cases hk : p.1 = k
        · simp [alistSet, alistGet, hp, hk, h]
        · simpa [alistSet, alistGet, hp, hk] using ih

theorem alistGet_del_self {α : Type} (m : List (String × α)) (k : String) :
    alistGet (alistDel m k) k = none := by
  induction m with
  | nil => simp [alistDel, alistGet]
  | cons p rest ih =>
      by_cases h : p.1 = k
      · simpa [alistDel, alistGet, h] using ih
      · simpa [alistDel, alistGet, h] using ih

theorem alistGet_del_ne {α : Type} (m : List (String × α)) (k k2 : String)
    (h : k ≠ k2) : alistGet (alistDel m k2) k = alistGet m k := by
  have h2 : ¬ (k2 = k) := fun hh => h hh.symm
  induction m with
  | nil => simp [alistDel, alistGet]
  | cons p rest ih =>
      by_cases hp : p.1 = k2
      · simpa [alistDel, alistGet, hp, h2] using ih
      · by_cases hk : p.1 = k
        · simp [alistDel, alistGet, hp, hk, h]
        · simpa [alistDel, alistGet, hp, hk] using ih

theorem alistHas_set_self {α : Type} (m : List (String × α)) (k : String) (v : α) :
    alistHas (alistSet m k v) k = true := by
  induction m with
  | nil => simp [alistSet, alistHas]
  | cons p rest ih =>
      by_cases h : p.1 = k
      · simp [alistSet, alistHas, h]
      · simpa [alistSet, alistHas, h] using ih

theorem alistHas_eq_isSome {α : Type} (m : List (String × α)) (k : String) :
    alistHas m k = (alistGet m k).isSome := by
  induction m with
  | nil => simp [alistHas, alistGet]
  | cons p rest ih =>
      by_cases h : p.1 = k
      · simp [alistHas, alistGet, h]
      · simpa [alistHas, alistGet, h] using ih

theorem alistGet_append_single_self {α : Type} (m : List (String × α)) (k : String) (v : α)
    (h : alistGet m k = none) : alistGet (m ++ [(k, v)]) k = some v := by
  induction m with
  | nil => simp [alistGet]
  | cons p rest ih =>
      by_cases hp : p.1 = k
      · simp [alistGet, hp] at h
      · simp [alistGet, hp] at h ⊢
        exact ih h

theorem alistGet_append_single_ne {α : Type} (m : List (String × α)) (k k2 : String) (v : α)
    (h : k ≠ k2) : alistGet (m ++ [(k2, v)]) k = alistGet m k := by
  have h2 : ¬ (k2 = k) := fun hh => h hh.symm
  induction m with
  | nil => simp [alistGet, h2]
  | cons p rest ih =>
      by_cases hp : p.1 = k
      · simp [alistGet, hp]
      · simpa [alistGet, hp] using ih

/-! ## C1: the message-store law -/

theorem upsertChat_get_self (xs : List (String × List MMsg)) (cid : String) (m : MMsg) :
    alistGet (upsertChat xs cid m) cid = (alistGet xs cid).map (fun ms => upsertById m ms) := by
  induction xs with
  | nil => simp [upsertChat, alistGet]
  | cons p rest ih =>
      by_cases hp : p.1 = cid
      · cases p with
        | mk k ms => simp only at hp; subst hp; simp [upsertChat, alistGet]
      · cases p with
        | mk k ms =>
            simp only at hp
            simpa [upsertChat, alistGet, hp] using ih

theorem upsertChat_get_ne (xs : List (String × List MMsg)) (cid C : String) (m : MMsg)
    (h : C ≠ cid) : alistGet (upsertChat xs cid m) C = alistGet xs C := by
  induction xs with
  | nil => simp [upsertChat, alistGet]
  | cons p rest ih =>
      cases p with
      | mk k ms =>
          by_cases hp : k = cid
          · subst hp
            have : ¬ (k = C) := fun hh => h hh.symm
            simp [upsertChat, alistGet, this]
          · by_cases hk : k = C
            · simp [upsertChat, alistGet, hp, hk, h]
            · simpa [upsertChat, alistGet, hp, hk] using ih

/-- The per-call law: adding a message touches exactly its own chat,
where it replaces the first same-id entry in place or appends. -/
theorem MStore.getChat_addMessage (st : MStore) (m : MMsg) (C : String) (hC : C ≠ "") :
    ((st.addMessage m).1).getChat C =
      (if m.chatId = some C then upsertById m (st.getChat C) else st.getChat C) := by
  cases hcid : m.chatId with
  | none => simp [MStore.addMessage, hcid]
  | some cid =>
      by_cases hz : cid = ""
      · subst hz
        have : ¬ (some "" = some C) := by
          intro hh
          exact hC (by injection hh with h1; exact h1.symm)
        simp [MStore.addMessage, hcid, this]
      · by_cases hceq : cid = C
        · subst hceq
          by_cases hhas : alistHas st.messages cid = true
          · have hsome : (alistGet st.messages cid).isSome := by
              rw [← alistHas_eq_isSome]; exact hhas
            obtain ⟨ms, hms⟩ := Option.isSome_iff_exists.mp hsome
            simp [MStore.addMessage, hcid, hz, hhas, MStore.getChat,
              upsertChat_get_self, hms]
          · have hnone : alistGet st.messages cid = none := by
              have := alistHas_eq_isSome st.messages cid
              rw [Bool.not_eq_true] at hhas
              rw [hhas] at this
              exact Option.not_isSome_iff_eq_none.mp (by simp [← this])
            have happ : alistGet (st.messages ++ [(cid, [])]) cid = some ([] : List MMsg) :=
              alistGet_append_single_self _ _ _ hnone
            simp [MStore.addMessage, hcid, hz, hhas, MStore.getChat,
              upsertChat_get_self, happ, hnone]
        · have hne : ¬ (some cid = some C) := by
            intro hh; exact hceq (by injection hh)
          by_cases hhas : alistHas st.messages cid = true
          · simp [MStore.addMessage, hcid, hz, hhas, MStore.getChat, hne,
              upsertChat_get_ne _ _ _ _ (fun hh => hceq hh.symm)]
          · have hgetapp : alistGet (st.messages ++ [(cid, [])]) C = alistGet st.messages C :=
              alistGet_append_single_ne _ _ _ _ (fun hh => hceq hh.symm)
            simp [MStore.addMessage, hcid, hz, hhas, MStore.getChat, hne,
              upsertChat_get_ne _ _ _ _ (fun hh => hceq hh.symm), hgetapp]

/-- The trace form: folding any message list through `addMessage`
projects, chat by chat, to the flat fold of `upsertById`. -/
theorem MStore.addAll_getChat (C : String) (hC : C ≠ "") :
    ∀ (msgs : List MMsg) (st : MStore),
      (st.addAll msgs).getChat C =
        msgs.foldl (fun acc m => if m.chatId = some C then upsertById m acc else acc)
          (st.getChat C) := by
  intro msgs
  induction msgs with
  | nil => intro st; simp [MStore.addAll]
  | cons m rest ih =>
      intro st
      have hstep := MStore.getChat_addMessage st m C hC
      calc (st.addAll (m :: rest)).getChat C
          = (((st.addMessage m).1).addAll rest).getChat C := by simp [MStore.addAll]
        _ = rest.foldl (fun acc x => if x.chatId = some C then upsertById x acc else acc)
              (((st.addMessage m).1).getChat C) := ih _
        _ = _ := by rw [hstep]; simp [List.foldl]

/-- C1: for every chat id C the store returns exactly the messages added
with chatId = C, in insertion order, a later message of an
already-stored id replacing that entry in place at its original
position; `addMessage` without a (truthy) chatId leaves the store
unchanged and fires nothing; every successful `addMessage` notifies the
message listeners with the message and the chat-set listeners with the
full chat map. -/
theorem C1_getChat_is_insertion_order_with_replacement
    (C : String) (hC : C ≠ "") (msgs : List MMsg) (st : MStore) (m : MMsg) :
    (MStore.addAll MStore.empty msgs).getChat C = chatSpec C msgs
    ∧ (m.chatId = none ∨ m.chatId = some "" → st.addMessage m = (st, []))
    ∧ (∀ cid, m.chatId = some cid → cid ≠ "" →
        (st.addMessage m).2 =
          [StoreEvent.newMessage m, StoreEvent.chatsChanged (st.addMessage m).1.messages]) := by
  refine ⟨?_, ?_, ?_⟩
  · have := MStore.addAll_getChat C hC msgs MStore.empty
    simpa [chatSpec, MStore.empty, MStore.getChat, alistGet] using this
  · intro h
    rcases h with h | h
    · simp [MStore.addMessage, h]
    · simp [MStore.addMessage, h]
  · intro cid hcid hz
    simp [MStore.addMessage, hcid, hz]

/-- A first user message in chat c1. -/
def wMsg1 : MMsg := ⟨"a1", "hello", "user", "u1", "Ada", "text", 1, some "c1", none⟩

/-- A message in a different chat. -/
def wMsgOther : MMsg := ⟨"b1", "elsewhere", "user", "u2", "Bob", "text", 2, some "c2", none⟩

/-- A second message in chat c1. -/
def wMsg2 : MMsg := ⟨"a2", "world", "user", "u1", "Ada", "text", 3, some "c1", none⟩

/-- A streaming update: same id as the first message, new content. -/
def wMsg1Upd : MMsg := ⟨"a1", "hello again", "assistant", "u1", "Ada", "text", 4, some "c1", none⟩

/-- A message without a chat id. -/
def wMsgNoChat : MMsg := ⟨"zz", "lost", "user", "u1", "Ada", "text", 5, none, none⟩

theorem C1_witness :
    (MStore.addAll MStore.empty [wMsg1, wMsgOther, wMsg2, wMsg1Upd]).getChat "c1" =
        chatSpec "c1" [wMsg1, wMsgOther, wMsg2, wMsg1Upd]
    ∧ chatSpec "c1" [wMsg1, wMsgOther, wMsg2, wMsg1Upd] = [wMsg1Upd, wMsg2]
    ∧ MStore.empty.addMessage wMsgNoChat = (MStore.empty, []) := by
  have h := C1_getChat_is_insertion_order_with_replacement "c1" (by decide)
    [wMsg1, wMsgOther, wMsg2, wMsg1Upd] MStore.empty wMsgNoChat
  exact ⟨h.1, by decide, h.2.1 (Or.inl rfl)⟩

/-! ## C5: the wire codec does not round-trip the sender id

`Message.serialize` writes `sender: {id, displayName}`, but
`Message.fromSerialized` reads `data.sender.senderId` — a property the
serializer never writes — so the decoded message's `sender.id` is
`undefined` for every serialized message. -/

/-- A fully populated message as `sendMessage` builds them. -/
def wWireMsg : Msg :=
  { id := some "m1", content := some "hi", role := some "user",
    sender := { id := some "alice", displayName := some "Alice" },
    timestamp := some 111, type := some "text", chatId := some "c1",
    reasoning_content := none }

/-- C5: decoding the serialized form of a concrete message loses
`sender.id` (it comes back `undefined` though the original is
`"alice"`); every other field survives.  This refutes the claim that
all fields — `sender.id` included — are preserved, and pins the slip to
`fromSerialized` reading `data.sender.senderId` where `serialize` wrote
`sender.id`. -/
theorem C5_roundtrip_drops_sender_id :
    Msg.fromSerializedJ (Msg.serializeJ wWireMsg) "f9" 999 =
      some { wWireMsg with sender := { id := none, displayName := some "Alice" } }
    ∧ wWireMsg.sender.id = some "alice" := by
  decide

/-! ## C7: `setDisplayName` -/

/-- C7: `setDisplayName(name)` fails with `InvalidArgument` exactly when
the name trims to empty, leaving the identity untouched; otherwise it
stores the trimmed name, returns it, and fires the display-name change
notification with it. -/
theorem C7_setDisplayName_trim_law (st : Backend) (name : String) :
    (jsTrim name = "" →
      st.setDisplayName name =
        (st, Except.error (IdError.invalidArgument "Display name cannot be empty"), []))
    ∧ (jsTrim name ≠ "" →
      st.setDisplayName name =
        ({ st with identity := { st.identity with displayName := jsTrim name } },
         Except.ok (jsTrim name), [jsTrim name])) := by
  constructor
  · intro h
    simp [Backend.setDisplayName, UserIdentity.setDisplayName, h]
  · intro h
    have hne : ¬ (name = "" ∨ jsTrim name = "") := by
      rintro (h1 | h1)
      · subst h1; exact h (by decide)
      · exact h h1
    simp [Backend.setDisplayName, UserIdentity.setDisplayName, hne]

/-- A concrete backend state for witnesses. -/
def wBackend : Backend :=
  { activeTopic := none, currentRoomId := none, swarmConns := [],
    swarmConnections := 0, peers := [], llmProvider := none,
    identity := ⟨"u1", "old-name", ⟨false, none⟩⟩, store := ChatStore.empty }

theorem C7_witness :
    Backend.setDisplayName wBackend "" =
      (wBackend, Except.error (IdError.invalidArgument "Display name cannot be empty"), [])
    ∧ Backend.setDisplayName wBackend "Ada" =
      ({ wBackend with identity := { wBackend.identity with displayName := "Ada" } },
       Except.ok "Ada", ["Ada"]) := by
  refine ⟨(C7_setDisplayName_trim_law wBackend "").1 (by decide), ?_⟩
  have h := (C7_setDisplayName_trim_law wBackend "Ada").2 (by decide)
  simpa using h

/-! ## C8: `createChat` freshness -/

/-- C8: with the freshly drawn random id not already a chat key (the
randomness oracle's freshness), `createChat` returns exactly that id —
absent from `getChats()` immediately before — and immediately after,
`getChat` of the returned id is empty and the id is a key of
`getChats()`. -/
theorem C8_createChat_fresh (st : MStore) (freshId : String)
    (h : alistGet st.messages freshId = none) :
    (st.createChat freshId).2.1 = freshId
    ∧ alistHas (MStore.getChats st) freshId = false
    ∧ ((st.createChat freshId).1).getChat freshId = []
    ∧ alistHas (MStore.getChats (st.createChat freshId).1) freshId = true := by
  refine ⟨rfl, ?_, ?_, ?_⟩
  · rw [MStore.getChats, alistHas_eq_isSome, h]; rfl
  · simp [MStore.createChat, MStore.getChat, alistGet_set_self]
  · simp [MStore.createChat, MStore.getChats, alistHas_set_self]

theorem C8_witness :
    (MStore.createChat ⟨[("c1", [wMsg1])]⟩ "c9").2.1 = "c9"
    ∧ alistHas (MStore.getChats ⟨[("c1", [wMsg1])]⟩) "c9" = false
    ∧ ((MStore.createChat ⟨[("c1", [wMsg1])]⟩ "c9").1).getChat "c9" = []
    ∧ alistHas (MStore.getChats (MStore.createChat ⟨[("c1", [wMsg1])]⟩ "c9").1) "c9" = true :=
  C8_createChat_fresh ⟨[("c1", [wMsg1])]⟩ "c9" (by decide)

/-! ## C9: malformed envelopes are dropped without effect -/

/-- A falsy JS value read as a string is absent or the empty string. -/
theorem asStr_of_not_truthy (v : Option JVal) (h : otruthy v = false) :
    asStr v = none ∨ asStr v = some "" := by
  match v with
  | none => exact Or.inl rfl
  | some .null => exact Or.inl rfl
  | some (.str s) =>
      have : s = "" := by simpa [otruthy, JVal.truthy] using h
      exact Or.inr (by simp [asStr, this])
  | some (.num n) => exact Or.inl rfl
  | some (.bool b) => exact Or.inl rfl
  | some (.arr xs) => exact Or.inl rfl
  | some (.obj fs) => exact Or.inl rfl

/-- `addMessage` is the identity on a message whose chatId is falsy. -/
theorem ChatStore.addMessage_falsy (st : ChatStore) (m : Msg)
    (h : m.chatId = none ∨ m.chatId = some "") : st.addMessage m = (st, []) := by
  rcases h with h | h
  · simp [ChatStore.addMessage, h]
  · simp [ChatStore.addMessage, h]

/-- C9: a payload that fails to parse as JSON or lacks the required
shape leaves the handler's state — the peer map and the message store —
exactly as it was; the handler is a total function, the source's
top-level `try`/`catch` having absorbed every throwing path. -/
theorem C9_malformed_envelope_is_noop (st : Backend) (peerId : String) (raw : Option JVal)
    (freshId : String) (now : Int) (h : malformedEnvelope raw = true) :
    Backend.peerDataHandler st peerId raw freshId now = st := by
  match raw with
  | none => rfl
  | some .null => rfl
  | some (.str s) =>
      simp [Backend.peerDataHandler, isStr, JVal.get, Msg.fromSerializedJ]
  | some (.num n) =>
      simp [Backend.peerDataHandler, isStr, JVal.get, Msg.fromSerializedJ]
  | some (.bool b) =>
      simp [Backend.peerDataHandler, isStr, JVal.get, Msg.fromSerializedJ]
  | some (.arr xs) =>
      simp [Backend.peerDataHandler, isStr, JVal.get, Msg.fromSerializedJ]
  | some (.obj fields) =>
      by_cases hid : isStr ((JVal.obj fields).get "type") "identity"
      · have hfalsy : otruthy ((JVal.obj fields).get "identity") = false := by
          have := h
          simp only [malformedEnvelope, hid, if_true] at this
          simpa using this
        simp only [Backend.peerDataHandler, hid, if_true]
        unfold Backend.handleIdentityMessage
        match hgi : (JVal.obj fields).get "identity" with
        | none => rfl
        | some idv =>
            rw [hgi] at hfalsy
            simp only [otruthy] at hfalsy
            simp [hfalsy]
      · simp only [Backend.peerDataHandler, hid, if_false]
        by_cases hhost : st.identity.hostStatus.isHost && st.llmProvider.isSome
        · simp [hhost]
        · simp only [hhost, if_false]
          have hsh := h
          simp only [malformedEnvelope, hid, if_false] at hsh
          match hsend : (JVal.obj fields).get "sender" with
          | none => simp [Msg.fromSerializedJ, hsend]
          | some .null => simp [Msg.fromSerializedJ, hsend]
          | some (.str s) =>
              rw [hsend] at hsh
              have hchat : otruthy ((JVal.obj fields).get "chatId") = false := by simpa using hsh
              have := asStr_of_not_truthy _ hchat
              simp only [Msg.fromSerializedJ, hsend]
              rcases this with hc | hc
              · simp [Msg.make, hc, ChatStore.addMessage]
              · simp [Msg.make, hc, ChatStore.addMessage]
          | some (.num k) =>
              rw [hsend] at hsh
              have hchat : otruthy ((JVal.obj fields).get "chatId") = false := by simpa using hsh
              have := asStr_of_not_truthy _ hchat
              simp only [Msg.fromSerializedJ, hsend]
              rcases this with hc | hc
              · simp [Msg.make, hc, ChatStore.addMessage]
              · simp [Msg.make, hc, ChatStore.addMessage]
          | some (.bool b) =>
              rw [hsend] at hsh
              have hchat : otruthy ((JVal.obj fields).get "chatId") = false := by simpa using hsh
              have := asStr_of_not_truthy _ hchat
              simp only [Msg.fromSerializedJ, hsend]
              rcases this with hc | hc
              · simp [Msg.make, hc, ChatStore.addMessage]
              · simp [Msg.make, hc, ChatStore.addMessage]
          | some (.arr xs) =>
              rw [hsend] at hsh
              have hchat : otruthy ((JVal.obj fields).get "chatId") = false := by simpa using hsh
              have := asStr_of_not_truthy _ hchat
              simp only [Msg.fromSerializedJ, hsend]
              rcases this with hc | hc
              · simp [Msg.make, hc, ChatStore.addMessage]
              · simp [Msg.make, hc, ChatStore.addMessage]
          | some (.obj fs) =>
              rw [hsend] at hsh
              have hchat : otruthy ((JVal.obj fields).get "chatId") = false := by simpa using hsh
              have := asStr_of_not_truthy _ hchat
              simp only [Msg.fromSerializedJ, hsend]
              rcases this with hc | hc
              · simp [Msg.make, hc, ChatStore.addMessage]
              · simp [Msg.make, hc, ChatStore.addMessage]

theorem C9_witness :
    Backend.peerDataHandler wBackend "p1" (some (.obj [("foo", .num 1)])) "f1" 7 = wBackend
    ∧ Backend.peerDataHandler wBackend "p1" none "f1" 7 = wBackend :=
  ⟨C9_malformed_envelope_is_noop wBackend "p1" _ "f1" 7 (by decide),
   C9_malformed_envelope_is_noop wBackend "p1" none "f1" 7 (by decide)⟩

/-! ## C10: a request hitting an unavailable host gets no reply -/

/-- C10: when the host's provider is unset or its status is not
`available`, handling an `llm-request` whose `requestId` has no entry in
`activeRequests` (freshly arriving requests never do — the error path
runs before the request is recorded) sends nothing to anyone and leaves
the host state unchanged, because `_sendErrorResponse` returns without
writing when the `requestId` has no `activeRequests` entry; the
requester's pending entry is therefore never resolved. -/
theorem C10_unavailable_host_sends_nothing (st : HostState) (data : JVal)
    (peerId freshRid : String) (now : Int)
    (h : st.provider.isNone = true ∨ st.status ≠ "available")
    (hfresh : ∀ r, reqIdOf data = some r → alistGet st.activeRequests r = none) :
    handleLLMRequest st data peerId freshRid now = (st, []) := by
  have hcond : (st.provider.isNone || decide (st.status ≠ "available")) = true := by
    rcases h with h | h
    · simp [h]
    · simp [h]
  unfold handleLLMRequest
  rw [hcond, if_pos rfl]
  cases hq : data.get "request" with
  | none => rfl
  | some v =>
      cases v with
      | null => rfl
      | str s => rfl
      | num n => rfl
      | bool b => rfl
      | arr xs => rfl
      | obj fs =>
          cases hr : asStr ((JVal.obj fs).get "requestId") with
          | none => simp [sendErrorResponse, hr]
          | some r =>
              have hrid : reqIdOf data = some r := by
                simp [reqIdOf, hq, hr]
              simp [sendErrorResponse, hr, hfresh r hrid]

/-- A concrete host with no provider. -/
def wHostState : HostState := { provider := none, status := "error", activeRequests := [] }

/-- A well-formed `llm-request` envelope. -/
def wLLMRequestEnvelope : JVal :=
  .obj [("type", .str "llm-request"),
        ("request", .obj [("requestId", .str "r1"),
                          ("conversationId", .str "cv1"),
                          ("model", .str "m1"),
                          ("messages", .arr []),
                          ("options", .obj []),
                          ("timestamp", .num 5)])]

theorem C10_witness :
    handleLLMRequest wHostState wLLMRequestEnvelope "peerA" "fresh1" 9 = (wHostState, []) :=
  C10_unavailable_host_sends_nothing wHostState wLLMRequestEnvelope "peerA" "fresh1" 9
    (Or.inl rfl) (fun _ _ => rfl)

/-! ## C3: `leaveRoom` tears the session down -/

/-- C3: a successful `leaveRoom` on a session with an active topic
destroys every open connection, empties the peer set (so `getPeers()`
is empty), clears the LLM provider, sets the identity's host status to
not hosting, leaves no active topic (`getCurrentTopic()` is `null`),
and once the swarm's update event refreshes the cached count,
`getPeerCount()` is 0. -/
theorem C3_leaveRoom_clears_session (st : Backend) (t : String)
    (h : st.activeTopic = some t) :
    (Backend.leaveRoom st true).2.1 = true
    ∧ (Backend.leaveRoom st true).2.2 = st.swarmConns
    ∧ (Backend.leaveRoom st true).1.swarmConns = []
    ∧ (Backend.leaveRoom st true).1.peers = []
    ∧ Backend.getPeers (Backend.leaveRoom st true).1 = []
    ∧ (Backend.leaveRoom st true).1.llmProvider = none
    ∧ (Backend.leaveRoom st true).1.identity.hostStatus.isHost = false
    ∧ Backend.getCurrentTopic (Backend.leaveRoom st true).1 = none
    ∧ Backend.getPeerCount (Backend.onSwarmUpdate (Backend.leaveRoom st true).1) = 0 := by
  refine ⟨?_, ?_, ?_, ?_, ?_, ?_, ?_, ?_, ?_⟩ <;>
    simp [Backend.leaveRoom, h, UserIdentity.setHostStatus, Backend.getPeers,
      Backend.getCurrentTopic, Backend.getPeerCount, Backend.onSwarmUpdate]

/-- A concrete backend in a room, hosting, with two live connections. -/
def wBackendActive : Backend :=
  { activeTopic := some "aabb", currentRoomId := some "aabb",
    swarmConns := ["conn1", "conn2"], swarmConnections := 2,
    peers := [("conn1", ⟨"conn1".take 6, 10, some "Ada", none⟩)],
    llmProvider := some "openai",
    identity := ⟨"u1", "Host", ⟨true, some ⟨"openai", "gpt", none⟩⟩⟩,
    store := ChatStore.empty }

/-! ## C2: `sendMessage` broadcast semantics -/

theorem pushChat_get_self (xs : List (String × List Msg)) (cid : String) (m : Msg) :
    alistGet (pushChat xs cid m) cid = (alistGet xs cid).map (fun ms => ms ++ [m]) := by
  induction xs with
  | nil => simp [pushChat, alistGet]
  | cons p rest ih =>
      cases p with
      | mk k ms =>
          by_cases hp : k = cid
          · subst hp; simp [pushChat, alistGet]
          · simpa [pushChat, alistGet, hp] using ih

/-- The per-call law for the backend's (append-only) store: adding a
message with a set chatId appends it to that chat. -/
theorem ChatStore.getChat_addMessage_self (st : ChatStore) (m : Msg) (cid : String)
    (hm : m.chatId = some cid) (hz : cid ≠ "") :
    ((st.addMessage m).1).getChat (some cid) = st.getChat (some cid) ++ [m] := by
  by_cases hhas : alistHas st.chats cid = true
  · have hsome : (alistGet st.chats cid).isSome := by
      rw [← alistHas_eq_isSome]; exact hhas
    obtain ⟨ms, hms⟩ := Option.isSome_iff_exists.mp hsome
    simp [ChatStore.addMessage, hm, hz, hhas, ChatStore.getChat, pushChat_get_self, hms]
  · have hnone : alistGet st.chats cid = none := by
      have := alistHas_eq_isSome st.chats cid
      rw [Bool.not_eq_true] at hhas
      rw [hhas] at this
      exact Option.not_isSome_iff_eq_none.mp (by simp [← this])
    have happ : alistGet (st.chats ++ [(cid, [])]) cid = some ([] : List Msg) :=
      alistGet_append_single_self _ _ _ hnone
    simp [ChatStore.addMessage, hm, hz, hhas, ChatStore.getChat, pushChat_get_self, happ, hnone]

/-- The write loop: starting from any accumulator, the loop appends one
write per peer whose connection accepts it, in peer order, each carrying
the same blob — a failing peer is skipped and the loop continues. -/
theorem sendLoop_writes (blob : JVal) (writeOk : String → Bool) :
    ∀ (peers : List (String × PeerInfo)) (acc : List (String × JVal) × Nat),
      peers.foldl
        (fun (acc : List (String × JVal) × Nat) p =>
          if writeOk p.1 then (acc.1 ++ [(p.1, blob)], acc.2 + 1) else acc) acc
      = (acc.1 ++ (peers.filter (fun p => writeOk p.1)).map (fun p => (p.1, blob)),
         acc.2 + (peers.filter (fun p => writeOk p.1)).length) := by
  intro peers
  induction peers with
  | nil => intro acc; simp
  | cons p rest ih =>
      intro acc
      by_cases hp : writeOk p.1 = true
      · simp only [List.foldl_cons, hp, if_true, List.filter_cons, ih]
        simp [hp, List.append_assoc]
        omega
      · simp only [List.foldl_cons, hp, if_false, List.filter_cons, ih]
        simp [hp]

/-- C2: `sendMessage(content, chatId)` returns `false` and changes
nothing when no room is active; otherwise it appends a fresh user-role
message built from the local identity to the store under `chatId`
(changing nothing else), and writes the serialized **whole chat** — as
it is after the append — to exactly the peers whose connection accepts
the write, a failing peer being skipped without affecting the writes to
the remaining peers. -/
theorem C2_sendMessage_broadcast (st : Backend) (content : Option String) (cid : String)
    (freshId : String) (now : Int) (writeOk : String → Bool) :
    (st.currentRoomId = none →
      Backend.sendMessage st content (some cid) freshId now writeOk = (st, false, []))
    ∧ (st.currentRoomId ≠ none → cid ≠ "" →
        ((Backend.sendMessage st content (some cid) freshId now writeOk).1.store.getChat (some cid)
            = st.store.getChat (some cid) ++
              [Msg.make content (some "user") (some st.identity.userId) (some "text")
                (some cid) (some st.identity.displayName) none freshId now]
         ∧ (Backend.sendMessage st content (some cid) freshId now writeOk).1
            = { st with store := (Backend.sendMessage st content (some cid) freshId now writeOk).1.store }
         ∧ (Backend.sendMessage st content (some cid) freshId now writeOk).2.2
            = (st.peers.filter (fun p => writeOk p.1)).map
                (fun p => (p.1, JVal.arr
                  (((Backend.sendMessage st content (some cid) freshId now writeOk).1.store.getChat
                      (some cid)).map Msg.toJson))))) := by
  constructor
  · intro h
    simp [Backend.sendMessage, h]
  · intro h hz
    cases hroom : st.currentRoomId with
    | none => exact absurd hroom h
    | some room =>
        have hmsg : (Msg.make content (some "user") (some st.identity.userId) (some "text")
            (some cid) (some st.identity.displayName) none freshId now).chatId = some cid := rfl
        have hstep := ChatStore.getChat_addMessage_self st.store
          (Msg.make content (some "user") (some st.identity.userId) (some "text")
            (some cid) (some st.identity.displayName) none freshId now) cid hmsg hz
        refine ⟨?_, ?_, ?_⟩
        · simp only [Backend.sendMessage, hroom]
          exact hstep
        · simp only [Backend.sendMessage, hroom]
        · simp only [Backend.sendMessage, hroom]
          rw [sendLoop_writes]
          simp

/-- A backend in a room with three peers, the middle one broken. -/
def wBackendRoom : Backend :=
  { activeTopic := some "t1", currentRoomId := some "t1",
    swarmConns := ["pa", "pb", "pc"], swarmConnections := 3,
    peers := [("pa", ⟨"pa", 1, some "A", none⟩), ("pb", ⟨"pb", 2, some "B", none⟩),
              ("pc", ⟨"pc", 3, some "C", none⟩)],
    llmProvider := none,
    identity := ⟨"me", "Me", ⟨false, none⟩⟩,
    store := ⟨[("c1", [wWireMsg])]⟩ }

/-- Write succeeds to every peer but pb. -/
def wWriteOk (p : String) : Bool := p ≠ "pb"

theorem C2_witness :
    ((Backend.sendMessage wBackendRoom (some "hi") (some "c1") "id7" 70 wWriteOk).1.store.getChat
        (some "c1")
      = wBackendRoom.store.getChat (some "c1") ++
          [Msg.make (some "hi") (some "user") (some wBackendRoom.identity.userId) (some "text")
            (some "c1") (some wBackendRoom.identity.displayName) none "id7" 70])
    ∧ (Backend.sendMessage wBackendRoom (some "hi") (some "c1") "id7" 70 wWriteOk).2.2
      = (wBackendRoom.peers.filter (fun p => wWriteOk p.1)).map
          (fun p => (p.1, JVal.arr
            (((Backend.sendMessage wBackendRoom (some "hi") (some "c1") "id7" 70 wWriteOk).1.store.getChat
                (some "c1")).map Msg.toJson)))
    ∧ (wBackendRoom.peers.filter (fun p => wWriteOk p.1)).map (fun p => p.1) = ["pa", "pc"] := by
  have h := (C2_sendMessage_broadcast wBackendRoom (some "hi") "c1" "id7" 70 wWriteOk).2
    (by simp [wBackendRoom]) (by decide)
  exact ⟨h.1, h.2.2, by decide⟩

theorem C3_witness :
    (Backend.leaveRoom wBackendActive true).2.1 = true
    ∧ (Backend.leaveRoom wBackendActive true).2.2 = wBackendActive.swarmConns
    ∧ (Backend.leaveRoom wBackendActive true).1.swarmConns = []
    ∧ (Backend.leaveRoom wBackendActive true).1.peers = []
    ∧ Backend.getPeers (Backend.leaveRoom wBackendActive true).1 = []
    ∧ (Backend.leaveRoom wBackendActive true).1.llmProvider = none
    ∧ (Backend.leaveRoom wBackendActive true).1.identity.hostStatus.isHost = false
    ∧ Backend.getCurrentTopic (Backend.leaveRoom wBackendActive true).1 = none
    ∧ Backend.getPeerCount (Backend.onSwarmUpdate (Backend.leaveRoom wBackendActive true).1) = 0 :=
  C3_leaveRoom_clears_session wBackendActive "aabb" rfl

/-! ## C4: a single active room per session -/

theorem mem_alistDel {α : Type} (m : List (String × α)) (k : String) (p : String × α)
    (h : p ∈ alistDel m k) : p ∈ m := by
  induction m with
  | nil => simp [alistDel] at h
  | cons q rest ih =>
      by_cases hq : q.1 = k
      · simp only [alistDel, hq, if_pos] at h
        exact List.mem_cons_of_mem _ (ih h)
      · simp only [alistDel, hq, if_neg, not_false_iff] at h
        rcases List.mem_cons.mp h with h | h
        · exact h ▸ List.mem_cons_self _ _
        · exact List.mem_cons_of_mem _ (ih h)

/-- Every peer connection of a reachable session state belongs to the
currently active topic. -/
theorem reach_peers_belong_to_active_topic :
    ∀ s, Reach s → ∀ p ∈ s.peers, s.activeTopic = some p.2 := by
  intro s hr
  induction hr with
  | start => intro p hp; simp [SessState.start] at hp
  | @join t s0 hr ih =>
      intro p hp
      cases hat : s0.activeTopic with
      | some t0 =>
          have hpe : (joinSwarm s0 t).peers = [] := by simp [joinSwarm, hat]
          rw [hpe] at hp
          simp at hp
      | none =>
          have hpe : (joinSwarm s0 t).peers = s0.peers := by simp [joinSwarm, hat]
          rw [hpe] at hp
          have hcontra := ih p hp
          rw [hat] at hcontra
          exact absurd hcontra (by simp)
  | @leave s0 hr ih =>
      intro p hp
      cases hat : s0.activeTopic with
      | some t0 =>
          have hls : leaveRoomS s0 = ⟨none, []⟩ := by simp [leaveRoomS, hat]
          rw [hls] at hp
          simp at hp
      | none =>
          have hls : leaveRoomS s0 = s0 := by simp [leaveRoomS, hat]
          rw [hls] at hp ⊢
          exact ih p hp
  | @connect c s0 hr ih =>
      intro p hp
      cases hat : s0.activeTopic with
      | some t0 =>
          have hcs : connectS s0 c = { s0 with peers := s0.peers ++ [(c, t0)] } := by
            simp [connectS, hat]
          rw [hcs] at hp ⊢
          rcases List.mem_append.mp hp with hmem | hmem
          · exact ih p hmem
          · rcases List.mem_singleton.mp hmem with rfl
            exact hat
      | none =>
          have hcs : connectS s0 c = s0 := by simp [connectS, hat]
          rw [hcs] at hp ⊢
          exact ih p hp
  | @close c s0 hr ih =>
      intro p hp
      have hpe : (closeS s0 c).peers = alistDel s0.peers c := rfl
      rw [hpe] at hp
      exact ih p (mem_alistDel _ _ _ hp)

/-- C4: the session has at most one active topic (the single
`activeTopic` slot), every peer connection of every reachable state
belongs to that topic, and `_joinSwarm` — the common path of
`createRoom` and `joinRoom` — first leaves the previous topic and closes
all existing connections, so right after it the active topic is the new
room's and the peer set is empty. -/
theorem C4_single_active_room :
    (∀ s, Reach s → ∀ p ∈ s.peers, s.activeTopic = some p.2)
    ∧ (∀ (s : SessState) (t : String),
        (joinSwarm s t).activeTopic = some t
        ∧ (s.activeTopic.isSome = true → (joinSwarm s t).peers = [])) := by
  refine ⟨reach_peers_belong_to_active_topic, ?_⟩
  intro s t
  constructor
  · by_cases h : s.activeTopic.isSome <;> simp [joinSwarm, h]
  · intro h; simp [joinSwarm, h]

/-- A reachable state: join topic aa, then one connection arrives. -/
def wSess : SessState := connectS (joinSwarm SessState.start "aa") "c1"

theorem C4_witness :
    wSess.activeTopic = some "aa" ∧ (joinSwarm wSess "bb").peers = [] :=
  ⟨C4_single_active_room.1 wSess
      (Reach.connect "c1" (Reach.join "aa" Reach.start)) ("c1", "aa") (by decide),
   (C4_single_active_room.2 wSess "bb").2 (by decide)⟩

/-! ## C6: the client dispatcher delivers at most one terminal event -/

/-- A step that performs a terminal delivery for a request id removes
that id's pending-callback entry. -/
theorem stepClient_terminal_removes (st : ClientState) (ev : ClientEv) (rid : String)
    (h : ((stepClient st ev).2.any (fun i => i.forReq rid && i.isTerminal)) = true) :
    alistGet (stepClient st ev).1.requestCallbacks rid = none := by
  cases ev with
  | register r tok => simp [stepClient] at h
  | response r he strm =>
      cases hhit : alistGet st.requestCallbacks r with
      | none => simp [stepClient, hhit] at h
      | some tok =>
          simp only [stepClient, hhit, List.any_cons, List.any_nil, Bool.or_false,
            Invocation.forReq, Invocation.isTerminal, Bool.and_eq_true, decide_eq_true_eq] at h
          obtain ⟨hr, hterm⟩ := h
          subst hr
          simp only [stepClient, hhit, hterm, if_pos]
          exact alistGet_del_self _ _
  | chunk r done =>
      cases done with
      | false =>
          cases hhit : alistGet st.requestCallbacks r with
          | none => simp [stepClient, hhit] at h
          | some tok =>
              simp [stepClient, hhit, Invocation.forReq, Invocation.isTerminal] at h
      | true =>
          cases hhit : alistGet st.requestCallbacks r with
          | none => simp [stepClient, hhit] at h
          | some tok =>
              have hr : r = rid := by
                simpa [stepClient, hhit, Invocation.forReq, Invocation.isTerminal] using h
              have hcb : (stepClient st (ClientEv.chunk r true)).1.requestCallbacks
                  = alistDel st.requestCallbacks r := by
                simp [stepClient, hhit]
              rw [hcb, hr]
              exact alistGet_del_self _ _

/-- Once a request id has no pending-callback entry, a run in which no
new registration reuses that id never invokes `onResponse` or `onChunk`
for it, and the entry stays absent. -/
theorem runClient_silent_for_absent (rid : String) :
    ∀ (evs : List ClientEv) (st : ClientState),
      alistGet st.requestCallbacks rid = none →
      (evs.all (fun e => !(e.registersFor rid))) = true →
      ((runClient st evs).2.all (fun i => !(i.forReq rid))) = true
      ∧ alistGet (runClient st evs).1.requestCallbacks rid = none := by
  intro evs
  induction evs with
  | nil => intro st h _; exact ⟨rfl, h⟩
  | cons ev rest ih =>
      intro st h hall
      simp only [List.all_cons, Bool.and_eq_true] at hall
      obtain ⟨hev, hrest⟩ := hall
      have hstep : ((stepClient st ev).2.all (fun i => !(i.forReq rid))) = true
          ∧ alistGet (stepClient st ev).1.requestCallbacks rid = none := by
        cases ev with
        | register r tok =>
            have hr : ¬ (r = rid) := by
              simpa [ClientEv.registersFor] using hev
            refine ⟨by simp [stepClient], ?_⟩
            show alistGet (alistSet st.requestCallbacks r tok) rid = none
            rw [alistGet_set_ne _ _ _ _ (fun hh => hr hh.symm)]
            exact h
        | response r he strm =>
            by_cases hr : r = rid
            · subst hr
              refine ⟨by simp [stepClient, h], ?_⟩
              simp [stepClient, h]
            · refine ⟨?_, ?_⟩
              · cases hhit : alistGet st.requestCallbacks r with
                | none => simp [stepClient, hhit]
                | some tok => simp [stepClient, hhit, Invocation.forReq, hr]
              · cases hhit : alistGet st.requestCallbacks r with
                | none => simpa [stepClient, hhit] using h
                | some tok =>
                    by_cases hc : (he || !strm) = true
                    · simp only [stepClient, hhit, hc, if_pos]
                      rw [alistGet_del_ne _ _ _ (fun hh => hr hh.symm)]
                      exact h
                    · simpa [stepClient, hhit, hc] using h
        | chunk r done =>
            by_cases hr : r = rid
            · subst hr
              refine ⟨by cases done <;> simp [stepClient, h], ?_⟩
              cases done
              · exact h
              · simp only [stepClient, h, if_pos]
                exact alistGet_del_self _ _
            · refine ⟨?_, ?_⟩
              · cases hhit : alistGet st.requestCallbacks r with
                | none => cases done <;> simp [stepClient, hhit]
                | some tok => cases done <;> simp [stepClient, hhit, Invocation.forReq, hr]
              · cases done
                · simpa [stepClient] using h
                · simp only [stepClient, if_pos]
                  rw [alistGet_del_ne _ _ _ (fun hh => hr hh.symm)]
                  exact h
      have hrec := ih (stepClient st ev).1 hstep.2 hrest
      refine ⟨?_, ?_⟩
      · show (((stepClient st ev).2 ++ (runClient (stepClient st ev).1 rest).2).all
            (fun i => !(i.forReq rid))) = true
        rw [List.all_append]
        simp [hstep.1, hrec.1]
      · exact hrec.2

/-- C6: when a dispatcher step performs a terminal delivery for a
request id — an `llm-response` carrying an error or with `isStream`
unset, or a stream chunk with `done` — the pending-callback entry is
removed at that step, and as long as no new `sendLLMRequest` reuses the
id, neither `onResponse` nor `onChunk` is ever invoked for it again
(hence at most one terminal delivery per registered id). -/
theorem C6_terminal_delivery_is_final (st : ClientState) (ev : ClientEv)
    (evs : List ClientEv) (rid : String)
    (hterm : ((stepClient st ev).2.any (fun i => i.forReq rid && i.isTerminal)) = true)
    (hreg : (evs.all (fun e => !(e.registersFor rid))) = true) :
    alistGet (stepClient st ev).1.requestCallbacks rid = none
    ∧ ((runClient (stepClient st ev).1 evs).2.all (fun i => !(i.forReq rid))) = true := by
  have h1 := stepClient_terminal_removes st ev rid hterm
  exact ⟨h1, (runClient_silent_for_absent rid evs _ h1 hreg).1⟩

/-- One pending request r1. -/
def wClient : ClientState := ⟨[("r1", 0)], [("r1", 0)]⟩

theorem C6_witness :
    alistGet (stepClient wClient (ClientEv.chunk "r1" true)).1.requestCallbacks "r1" = none
    ∧ ((runClient (stepClient wClient (ClientEv.chunk "r1" true)).1
          [ClientEv.chunk "r1" true, ClientEv.response "r1" false false,
           ClientEv.register "r2" 1]).2.all
        (fun i => !(i.forReq "r1"))) = true :=
  C6_terminal_delivery_is_final wClient (ClientEv.chunk "r1" true)
    [ClientEv.chunk "r1" true, ClientEv.response "r1" false false, ClientEv.register "r2" 1]
    "r1" (by decide) (by decide)

end Prometheus